import Mathlib

/-!
Verification of the retrieval/resolution core of the HbarSuite IPFS access
layer: CID extraction (`_Base.extractCID`), the gateway fan-out read
(`_Gateway.get` over `Promise.any`), the pin ledger operations
(`_Node.pin` / `_Node.unpin` / `handleIpfsBroadcastWrite`), and the facade
read-preference ordering (`IpfsService.get` / `IpfsService.getFile`).
All definitions are shallow embeddings of the TypeScript source.
-/

namespace HbarIpfs

/-! ## CID extraction (`_Base.extractCID`, ipfs.base.model.ts)

The JavaScript method, for a truthy `url`, evaluates
`regex.exec(url.replace('ipfs://', ''))` with the regular expression
`(https:\/\/[^?]+\/ipfs\/)?([^?]+)`, takes capture group 2, and, when that
group ends with `ipfs.dweb.link/`, re-extracts group 1 of
`https:\/\/([^?]+)\.ipfs\.dweb\.link\/`.  A falsy `url` returns `null`.
When the first `exec` returns no match (the cleaned string has no character
other than a question mark) the subsequent `.endsWith` call on `undefined`
throws; when the second `exec` returns no match the method returns
`undefined`.  The embedding makes all four outcomes explicit. -/

/-- Outcome of a JavaScript call: a thrown exception, `null`, `undefined`,
or a returned string. -/
inductive JsRet where
  | throws
  | retNull
  | retUndef
  | retStr (s : String)
deriving DecidableEq

/-- Characters of the literal scheme string stripped by
`url.replace('ipfs://', '')`. -/
def ipfsSchemeChars : List Char := "ipfs://".data

/-- Characters of the literal `https://` that opens capture group 1 of both
regular expressions. -/
def httpsChars : List Char := "https://".data

/-- Characters of the literal `/ipfs/` inside capture group 1 of the main
regular expression. -/
def slashIpfsChars : List Char := "/ipfs/".data

/-- Characters of the literal suffix tested by
`cid.endsWith('ipfs.dweb.link/')`. -/
def dwebEndChars : List Char := "ipfs.dweb.link/".data

/-- Characters of the literal `.ipfs.dweb.link/` that closes the dweb
regular expression. -/
def dwebSfxChars : List Char := ".ipfs.dweb.link/".data

/-- `String.prototype.replace` with a string pattern: remove the first
occurrence of `pat` (the source calls `url.replace('ipfs://', '')`). -/
def replaceFirst (pat : List Char) : List Char → List Char
  | [] => []
  | c :: cs =>
    if pat.isPrefixOf (c :: cs) then (c :: cs).drop pat.length
    else c :: replaceFirst pat cs

/-- Whether capture group 1 of `(https:\/\/[^?]+\/ipfs\/)?([^?]+)` can close
after consuming `k` characters of `tail` (the text after `https://`) with
its `[^?]+`, followed by the literal `/ipfs/` and at least one non-`?`
character for group 2. -/
def kOk (tail : List Char) (k : Nat) : Bool :=
  decide (1 ≤ k) && (tail.take k).all (fun c => c != '?') &&
    slashIpfsChars.isPrefixOf (tail.drop k) &&
    ((tail.drop (k + 6)).headD '?' != '?')

/-- The greedy (largest) admissible `k` for capture group 1, or `none` when
group 1 cannot participate in the match. -/
def groupOneK (tail : List Char) : Option Nat :=
  (List.range (tail.length + 1)).foldl
    (fun acc k => if kOk tail k then some k else acc) none

/-- Capture group 2 of the main regular expression for a match anchored at
the first non-`?` character `rest` (backtracking prefers a present group 1;
when group 1 cannot complete, group 2 alone consumes the maximal `[^?]+`
run). -/
def mainAt (rest : List Char) : List Char :=
  if httpsChars.isPrefixOf rest then
    match groupOneK (rest.drop 8) with
    | some k => ((rest.drop 8).drop (k + 6)).takeWhile (fun c => c != '?')
    | none => rest.takeWhile (fun c => c != '?')
  else rest.takeWhile (fun c => c != '?')

/-- `regex.exec` for `(https:\/\/[^?]+\/ipfs\/)?([^?]+)`: the leftmost match
starts at the first non-`?` character; the result is capture group 2, or
`none` when the string has no non-`?` character. -/
def execMain (cs : List Char) : Option (List Char) :=
  match cs.dropWhile (fun c => c == '?') with
  | [] => none
  | c :: rest => some (mainAt (c :: rest))

/-- Whether the dweb regular expression `https:\/\/([^?]+)\.ipfs\.dweb\.link\/`
can close its `[^?]+` after `k` characters of `tail` (the text after
`https://`). -/
def dwebOk (tail : List Char) (k : Nat) : Bool :=
  decide (1 ≤ k) && (tail.take k).all (fun c => c != '?') &&
    dwebSfxChars.isPrefixOf (tail.drop k)

/-- The greedy (largest) admissible `k` for the dweb capture group. -/
def dwebK (tail : List Char) : Option Nat :=
  (List.range (tail.length + 1)).foldl
    (fun acc k => if dwebOk tail k then some k else acc) none

/-- A match of the dweb regular expression anchored at the start of `cs`,
returning capture group 1. -/
def dwebAt (cs : List Char) : Option (List Char) :=
  if httpsChars.isPrefixOf cs then
    match dwebK (cs.drop 8) with
    | some k => some ((cs.drop 8).take k)
    | none => none
  else none

/-- `dweb.exec`: leftmost match of
`https:\/\/([^?]+)\.ipfs\.dweb\.link\/`, returning capture group 1. -/
def execDweb : List Char → Option (List Char)
  | [] => none
  | c :: cs =>
    match dwebAt (c :: cs) with
    | some g => some g
    | none => execDweb cs

/-- Characters of the query-string suffix used in the gateway URL shape of
the specification, `?q=1`. -/
def qChars : List Char := "?q=1".data

/-- The dweb re-extraction pass of `extractCID`: when the first capture
ends with `ipfs.dweb.link/` run the dweb regular expression on it (a failed
second match leaves `cid = undefined`, which the method returns). -/
def dwebPass (cid : List Char) : JsRet :=
  if dwebEndChars.isSuffixOf cid then
    match execDweb cid with
    | none => .retUndef
    | some g => .retStr (String.mk g)
  else .retStr (String.mk cid)

/-- `_Base.extractCID` (ipfs.base.model.ts, lines 54-72).  `none` models a
`null` argument; an empty string is falsy in JavaScript, so both return
`null`. -/
def extractCID (url : Option String) : JsRet :=
  match url with
  | none => .retNull
  | some u =>
    if u = "" then .retNull
    else
      match execMain (replaceFirst ipfsSchemeChars u.data) with
      | none => .throws
      | some cid => dwebPass cid

/-! ## Fan-out gateway read (`_Gateway.get`, ipfs.gateway.model.ts)

`_Gateway.get` launches one HTTP GET per configured gateway URL and awaits
`Promise.any(promises)`: the first fulfilled promise wins; if every promise
rejects, `Promise.any` rejects with an `AggregateError` collecting all the
rejection reasons in input order.  The embedding makes the nondeterministic
completion interleaving an explicit parameter `order`: a permutation of the
attempt indices listing the order in which the requests settle. -/

/-- Result of one asynchronous attempt (a settled promise). -/
inductive Res (α : Type) where
  | ok (v : α)
  | err (e : String)
deriving DecidableEq

/-- Result of the fan-out read: first fulfilled value, or the
`AggregateError` of `Promise.any` carrying every rejection reason. -/
inductive FanOut where
  | ok (v : String)
  | contentUnavailable (errors : List String)
deriving DecidableEq

/-- `Promise.any`: scan the settlement order and return the first fulfilled
attempt; when none is fulfilled, aggregate all errors in input order. -/
def promiseAny (attempts : List (Res String)) (order : List Nat) : FanOut :=
  match order.findSome? (fun i =>
      match attempts[i]? with
      | some (Res.ok v) => some v
      | _ => none) with
  | some v => .ok v
  | none =>
    .contentUnavailable (attempts.filterMap (fun a =>
      match a with
      | .err e => some e
      | .ok _ => none))

/-- Environment of `_Gateway`: the configured gateway URL list and the HTTP
GET capability (`httpService.get`). -/
structure GwEnv where
  gatewaysUrls : List String
  httpGet : String → Res String

/-- `_Gateway.get` (ipfs.gateway.model.ts, lines 70-85): one GET of
`gateway ++ CID` per configured gateway, resolved by `Promise.any`. -/
def Gateway.get (env : GwEnv) (CID : String) (order : List Nat) : FanOut :=
  promiseAny (env.gatewaysUrls.map (fun gateway => env.httpGet (gateway ++ CID))) order

/-! ## Pin ledger (`_Node.pin` / `_Node.unpin`, ipfs.node.model.ts)

The ledger is the Mongo `pinModel` collection, kept in insertion order.
`findOne` returns the first document matching the cid; `deleteOne` removes
the first such document.  `client.pin.rm` is the backing IPFS pin removal;
its success is an explicit parameter `rmOk` since it is an external call
that can fail.  `pin` models the success path of `client.add` (deterministic
content addressing: the CID is a function of the content) followed by the
unconditional `pinModel.create` and the optional event emission. -/

/-- A document of the `pinModel` collection (ipfs.pin.model.ts). -/
structure PinRecord where
  cid : String
  owner : String
  timestamp : Nat
deriving DecidableEq

/-- State touched by `_Node`: the backing IPFS pinset and the Mongo pin
ledger. -/
structure NodeState where
  backingPins : List String
  ledger : List PinRecord
deriving DecidableEq

/-- The three failures `_Node.unpin` can throw: `Content not pinned`,
`Unauthorized: only content owner can unpin`, and a failure of the backing
`client.pin.rm` call. -/
inductive UnpinError where
  | notPinned
  | unauthorized
  | backendError
deriving DecidableEq

/-- Result of `_Node.unpin`: a returned boolean or a thrown error. -/
inductive UnpinRes where
  | ok (b : Bool)
  | err (e : UnpinError)
deriving DecidableEq

/-- `pinModel.findOne({ cid })`: first ledger document with this cid. -/
def findOne (ledger : List PinRecord) (cid : String) : Option PinRecord :=
  ledger.find? (fun r => r.cid == cid)

/-- `_Node.unpin` (ipfs.node.model.ts, lines 353-370): look up the record,
check ownership, remove the backing pin (`client.pin.rm`), then delete the
ledger record (`pinModel.deleteOne`) and return `true`.  The pair carries
the state after the call next to the JavaScript outcome. -/
def unpin (st : NodeState) (cid : String) (callerWalletId : String) (rmOk : Bool) :
    NodeState × UnpinRes :=
  match findOne st.ledger cid with
  | none => (st, .err .notPinned)
  | some pinData =>
    if pinData.owner ≠ callerWalletId then (st, .err .unauthorized)
    else if rmOk then
      ({ backingPins := st.backingPins.erase cid,
         ledger := st.ledger.eraseP (fun r => r.cid == cid) }, .ok true)
    else (st, .err .backendError)

/-- A payload emitted on the event bus (`eventEmitter.emit(topic, payload)`). -/
structure BusEvent where
  topic : String
  content : String
  ownerWalletId : String
deriving DecidableEq

/-- Environment of `_Node.pin`: deterministic content addressing for
`client.add` and the clock for `Date.now()`. -/
structure PinEnv where
  addCid : String → String
  now : Nat

/-- The topic `_Node.pin` emits on when `broadcast` is true
(ipfs.node.model.ts, line 300). -/
def pinEmitTopic : String := "ipfs:write"

/-- The topic `handleIpfsBroadcastWrite` subscribes to via `@OnEvent`
(ipfs.node.model.ts, line 326). -/
def listenerTopic : String := "ipfs:broadcast:write"

/-- `_Node.pin` (ipfs.node.model.ts, lines 288-310), success path: add the
content to the backing store, append a ledger record with the owner wallet
and current timestamp, and, when `broadcast` is true, emit one event on
`pinEmitTopic`.  Returns the new state, the CID, and the emitted events. -/
def pin (env : PinEnv) (st : NodeState) (content ownerWalletId : String)
    (broadcast : Bool) : NodeState × String × List BusEvent :=
  let cid := env.addCid content
  ({ backingPins := cid :: st.backingPins,
     ledger := st.ledger ++ [{ cid := cid, owner := ownerWalletId, timestamp := env.now }] },
   cid,
   if broadcast then
     [{ topic := pinEmitTopic, content := content, ownerWalletId := ownerWalletId }]
   else [])

/-- Event-bus delivery: the replication listener receives exactly the
events whose topic equals its `@OnEvent` subscription topic. -/
def deliveredToListener (events : List BusEvent) : List BusEvent :=
  events.filter (fun ev => ev.topic == listenerTopic)

/-- Body of `handleIpfsBroadcastWrite` (ipfs.node.model.ts, lines 326-336):
re-pin the payload with broadcasting disabled; failures are caught. -/
def handleIpfsBroadcastWrite (env : PinEnv) (st : NodeState) (ev : BusEvent) :
    NodeState × String × List BusEvent :=
  pin env st ev.content ev.ownerWalletId false

/-- Number of ledger records carrying a given cid. -/
def recordsFor (ledger : List PinRecord) (cid : String) : Nat :=
  (ledger.filter (fun r => r.cid == cid)).length

/-! ## Facade (`IpfsService`, ipfs.service.ts) and result shapes

`_Node.get` wraps the fetched content as `{ data: parsedContent }` where
the content is `JSON.parse`d when possible and kept as a string otherwise;
`_Gateway.get` resolves the axios response body directly (axios applies the
same JSON-then-raw-string parse).  `JsVal` is the minimal value language
needed to distinguish the two shapes. -/

/-- A JavaScript value: a string, or an object of the shape
`{ data: v }`. -/
inductive JsVal where
  | str (s : String)
  | dataObj (v : JsVal)
deriving DecidableEq

/-- Shared JSON parsing (node's `JSON.parse` with raw-string fallback, and
axios's default response transform): the parsed value when the text is
JSON, the raw string otherwise.  The parser itself is an abstract
parameter. -/
def parseOr (parse : String → Option JsVal) (content : String) : JsVal :=
  match parse content with
  | some v => v
  | none => .str content

/-- The value `_Node.get` produces for fetched raw content
(ipfs.node.model.ts, lines 213-233): the parsed content wrapped as
`{ data: _ }`. -/
def nodeGetResult (parse : String → Option JsVal) (content : String) : JsVal :=
  .dataObj (parseOr parse content)

/-- The value `_Gateway.get` produces for the same raw content
(ipfs.gateway.model.ts, lines 70-85): the axios response body, unwrapped. -/
def gatewayGetResult (parse : String → Option JsVal) (content : String) : JsVal :=
  parseOr parse content

/-- The file payload of `getFile`: buffer plus detected type. -/
structure FileData where
  buffer : List Nat
  ftype : Option String
deriving DecidableEq

/-- Environment of `IpfsService`: the two providers' read operations, as
resolved-or-rejected outcomes. -/
structure ServiceEnv where
  nodeGet : String → Res JsVal
  gatewayGet : String → Res JsVal
  gatewayGetFile : String → Res FileData
  nodeGetFile : String → Res FileData

/-- `IpfsService.get` (ipfs.service.ts, lines 158-170): try the node
provider; on any failure fall back to the gateway provider, rejecting with
the gateway's error when both fail. -/
def IpfsService.get (env : ServiceEnv) (CID : String) : Res JsVal :=
  match env.nodeGet CID with
  | .ok v => .ok v
  | .err _ => env.gatewayGet CID

/-- `IpfsService.getFile` (ipfs.service.ts, lines 180-192): try the gateway
provider; on any failure fall back to the node provider, rejecting with the
node's error when both fail. -/
def IpfsService.getFile (env : ServiceEnv) (ipfsUrl : String) : Res FileData :=
  match env.gatewayGetFile ipfsUrl with
  | .ok v => .ok v
  | .err _ => env.nodeGetFile ipfsUrl

/-! ## List helper lemmas -/

theorem isPrefixOf_append_self (l t : List Char) : l.isPrefixOf (l ++ t) = true := by
  induction l with
  | nil => simp
  | cons c cs ih => simp [List.isPrefixOf_cons₂, ih]

theorem isPrefixOf_self (l : List Char) : l.isPrefixOf l = true := by
  have := isPrefixOf_append_self l []
  simp only [List.append_nil] at this
  exact this

theorem mem_of_isPrefixOf {pat l : List Char} (h : pat.isPrefixOf l = true) :
    ∀ c ∈ pat, c ∈ l := by
  induction pat generalizing l with
  | nil => simp
  | cons p ps ih =>
    cases l with
    | nil => simp at h
    | cons b bs =>
      rw [List.isPrefixOf_cons₂, Bool.and_eq_true] at h
      have hpb : p = b := by simpa using h.1
      intro c hc
      rcases List.mem_cons.mp hc with rfl | hc
      · exact hpb ▸ List.mem_cons_self _ _
      · exact List.mem_cons_of_mem _ (ih h.2 c hc)

theorem length_le_of_isPrefixOf {pat l : List Char} (h : pat.isPrefixOf l = true) :
    pat.length ≤ l.length := by
  induction pat generalizing l with
  | nil => simp
  | cons p ps ih =>
    cases l with
    | nil => simp at h
    | cons b bs =>
      rw [List.isPrefixOf_cons₂, Bool.and_eq_true] at h
      simpa [Nat.succ_le_succ_iff] using ih h.2

theorem isSuffixOf_append_self (t l : List Char) : l.isSuffixOf (t ++ l) = true := by
  rw [List.isSuffixOf, List.reverse_append]
  exact isPrefixOf_append_self _ _

theorem mem_of_isSuffixOf {pat l : List Char} (h : pat.isSuffixOf l = true) :
    ∀ c ∈ pat, c ∈ l := by
  rw [List.isSuffixOf] at h
  intro c hc
  have := mem_of_isPrefixOf h c (List.mem_reverse.mpr hc)
  exact List.mem_reverse.mp this

theorem isPrefixOf_drop_append {p : Char} {ps l : List Char} (hpre : ∀ c ∈ l, c ≠ p) :
    ∀ {ms : List Char} {k : Nat}, (p :: ps).isPrefixOf ((l ++ ms).drop k) = true →
      l.length ≤ k ∧ (p :: ps).isPrefixOf (ms.drop (k - l.length)) = true := by
  induction l with
  | nil => intro ms k h; simpa using h
  | cons c cs ih =>
    intro ms k h
    cases k with
    | zero =>
      rw [List.drop_zero, List.cons_append, List.isPrefixOf_cons₂, Bool.and_eq_true] at h
      have : p = c := by simpa using h.1
      exact absurd this.symm (hpre c (List.mem_cons_self c cs))
    | succ k =>
      rw [List.cons_append, List.drop_succ_cons] at h
      have hres := ih (fun d hd => hpre d (List.mem_cons_of_mem _ hd)) h
      exact ⟨Nat.succ_le_succ hres.1, by simpa [Nat.succ_sub_succ] using hres.2⟩

theorem foldl_pick_eq_init {f : Nat → Bool} :
    ∀ (l : List Nat) (acc : Option Nat), (∀ k ∈ l, f k = false) →
      l.foldl (fun acc k => if f k then some k else acc) acc = acc := by
  intro l
  induction l with
  | nil => intro acc _; rfl
  | cons a l ih =>
    intro acc h
    rw [List.foldl_cons, if_neg (by simp [h a (List.mem_cons_self _ _)])]
    exact ih acc (fun k hk => h k (List.mem_cons_of_mem _ hk))

theorem foldl_pick_eq_some {f : Nat → Bool} {k0 : Nat} :
    ∀ (l : List Nat) (acc : Option Nat), (∀ k ∈ l, f k = true → k = k0) →
      ((k0 ∈ l ∧ f k0 = true) ∨ acc = some k0) →
      l.foldl (fun acc k => if f k then some k else acc) acc = some k0 := by
  intro l
  induction l with
  | nil =>
    intro acc _ hd
    rcases hd with ⟨h1, _⟩ | h2
    · exact absurd h1 (List.not_mem_nil _)
    · simpa using h2
  | cons a l ih =>
    intro acc h hd
    rw [List.foldl_cons]
    by_cases hfa : f a = true
    · have ha : a = k0 := h a (List.mem_cons_self _ _) hfa
      subst ha
      rw [if_pos hfa]
      exact ih _ (fun k hk => h k (List.mem_cons_of_mem _ hk)) (Or.inr rfl)
    · rw [if_neg hfa]
      apply ih _ (fun k hk => h k (List.mem_cons_of_mem _ hk))
      rcases hd with ⟨h1, h2⟩ | h2
      · rcases List.mem_cons.mp h1 with rfl | h1'
        · exact absurd h2 hfa
        · exact Or.inl ⟨h1', h2⟩
      · exact Or.inr h2

theorem takeWhile_of_all {p : Char → Bool} :
    ∀ {l : List Char}, (∀ c ∈ l, p c = true) → l.takeWhile p = l := by
  intro l
  induction l with
  | nil => intro _; rfl
  | cons c cs ih =>
    intro h
    rw [List.takeWhile_cons_of_pos (h c (List.mem_cons_self _ _))]
    exact congrArg (c :: ·) (ih (fun d hd => h d (List.mem_cons_of_mem _ hd)))

theorem takeWhile_append_stop {p : Char → Bool} {l r : List Char} {c : Char}
    (hl : ∀ d ∈ l, p d = true) (hc : p c = false) :
    (l ++ c :: r).takeWhile p = l := by
  rw [List.takeWhile_append_of_pos hl, List.takeWhile_cons_of_neg (by simp [hc]),
    List.append_nil]

theorem dropWhile_of_all_neg {p : Char → Bool} :
    ∀ {l : List Char}, (∀ c ∈ l, p c = false) → l.dropWhile p = l := by
  intro l
  induction l with
  | nil => intro _; rfl
  | cons c cs _ =>
    intro h
    exact List.dropWhile_cons_of_neg (by simp [h c (List.mem_cons_self _ _)])

theorem findSome?_of_unique {β : Type} {f : Nat → Option β} {a : β} :
    ∀ (l : List Nat), (∀ i ∈ l, f i = none ∨ f i = some a) → (∃ i ∈ l, f i = some a) →
      l.findSome? f = some a := by
  intro l
  induction l with
  | nil =>
    rintro _ ⟨i, hi, _⟩
    exact absurd hi (List.not_mem_nil _)
  | cons b l ih =>
    intro hall hex
    rw [List.findSome?_cons]
    rcases hall b (List.mem_cons_self _ _) with hb | hb
    · rw [hb]
      refine ih (fun i hi => hall i (List.mem_cons_of_mem _ hi)) ?_
      obtain ⟨i, hi, hfi⟩ := hex
      rcases List.mem_cons.mp hi with rfl | hi'
      · rw [hb] at hfi; exact absurd hfi (by simp)
      · exact ⟨i, hi', hfi⟩
    · rw [hb]

theorem replaceFirst_head_match (pat rest : List Char) (hne : pat ≠ []) :
    replaceFirst pat (pat ++ rest) = rest := by
  cases pat with
  | nil => exact absurd rfl hne
  | cons p ps =>
    rw [List.cons_append]
    show (if (p :: ps).isPrefixOf (p :: (ps ++ rest)) then
        (p :: (ps ++ rest)).drop (p :: ps).length
      else p :: replaceFirst (p :: ps) (ps ++ rest)) = rest
    rw [if_pos (by rw [← List.cons_append]; exact isPrefixOf_append_self _ _)]
    simp [List.drop_left]

theorem replaceFirst_of_not_mem {x : Char} {pat : List Char} (hx : x ∈ pat) :
    ∀ {l : List Char}, (∀ c ∈ l, c ≠ x) → replaceFirst pat l = l := by
  intro l
  induction l with
  | nil => intro _; rfl
  | cons c cs ih =>
    intro h
    have hnp : ¬ pat.isPrefixOf (c :: cs) = true := fun hp =>
      (h x (mem_of_isPrefixOf hp x hx)) rfl
    show (if pat.isPrefixOf (c :: cs) then (c :: cs).drop pat.length
      else c :: replaceFirst pat cs) = c :: cs
    rw [if_neg hnp]
    exact congrArg (c :: ·) (ih (fun d hd => h d (List.mem_cons_of_mem _ hd)))

theorem replaceFirst_cons_ne {p c : Char} {ps cs : List Char} (hne : c ≠ p) :
    replaceFirst (p :: ps) (c :: cs) = c :: replaceFirst (p :: ps) cs := by
  show (if (p :: ps).isPrefixOf (c :: cs) then (c :: cs).drop (p :: ps).length
    else c :: replaceFirst (p :: ps) cs) = c :: replaceFirst (p :: ps) cs
  rw [if_neg]
  rw [List.isPrefixOf_cons₂]
  simp [Ne.symm hne]

theorem replaceFirst_https {rest : List Char} (hrest : ∀ c ∈ rest, c ≠ ':') :
    replaceFirst ipfsSchemeChars (httpsChars ++ rest) = httpsChars ++ rest := by
  have h1 : httpsChars ++ rest =
      'h' :: 't' :: 't' :: 'p' :: 's' :: ':' :: '/' :: '/' :: rest := rfl
  have h2 : ipfsSchemeChars = 'i' :: 'p' :: 'f' :: 's' :: ':' :: '/' :: '/' :: [] := rfl
  rw [h1, h2]
  rw [replaceFirst_cons_ne (by decide), replaceFirst_cons_ne (by decide),
    replaceFirst_cons_ne (by decide), replaceFirst_cons_ne (by decide),
    replaceFirst_cons_ne (by decide), replaceFirst_cons_ne (by decide),
    replaceFirst_cons_ne (by decide), replaceFirst_cons_ne (by decide)]
  rw [replaceFirst_of_not_mem (x := ':') (by decide) hrest]

/-! ## Lemmas about the embedded regular-expression engine -/

theorem string_data_ne_nil {s : String} (h : s ≠ "") : s.data ≠ [] := by
  intro hd
  apply h
  cases s with
  | mk l =>
    simp only at hd
    subst hd
    rfl

theorem groupOneK_eq_none {tail : List Char} (h : ∀ k, kOk tail k = false) :
    groupOneK tail = none :=
  foldl_pick_eq_init _ none (fun k _ => h k)

theorem groupOneK_eq_some {tail : List Char} {k0 : Nat} (hk : kOk tail k0 = true)
    (huniq : ∀ k, kOk tail k = true → k = k0) (hle : k0 ≤ tail.length) :
    groupOneK tail = some k0 :=
  foldl_pick_eq_some _ none (fun k _ hkt => huniq k hkt)
    (Or.inl ⟨List.mem_range.mpr (Nat.lt_succ_of_le hle), hk⟩)

theorem dwebK_eq_some {tail : List Char} {k0 : Nat} (hk : dwebOk tail k0 = true)
    (huniq : ∀ k, dwebOk tail k = true → k = k0) (hle : k0 ≤ tail.length) :
    dwebK tail = some k0 :=
  foldl_pick_eq_some _ none (fun k _ hkt => huniq k hkt)
    (Or.inl ⟨List.mem_range.mpr (Nat.lt_succ_of_le hle), hk⟩)

theorem execMain_of_head_ne {c : Char} {cs : List Char} (hc : c ≠ '?') :
    execMain (c :: cs) = some (mainAt (c :: cs)) := by
  unfold execMain
  rw [List.dropWhile_cons_of_neg (by simp [hc])]

theorem mainAt_https {rest : List Char} :
    mainAt (httpsChars ++ rest) =
      match groupOneK rest with
      | some k => (rest.drop (k + 6)).takeWhile (fun c => c != '?')
      | none => (httpsChars ++ rest).takeWhile (fun c => c != '?') := by
  unfold mainAt
  rw [if_pos (isPrefixOf_append_self _ _),
    List.drop_left' (show httpsChars.length = 8 from rfl)]

theorem mainAt_plain {l : List Char} (hnp : httpsChars.isPrefixOf l = false) :
    mainAt l = l.takeWhile (fun c => c != '?') := by
  unfold mainAt
  rw [hnp]
  simp

theorem extractCID_eq_dwebPass {u : String} {cid : List Char} (hne : u ≠ "")
    (h : execMain (replaceFirst ipfsSchemeChars u.data) = some cid) :
    extractCID (some u) = dwebPass cid := by
  simp only [extractCID]
  rw [if_neg hne, h]

theorem extractCID_of_execMain_none {u : String} (hne : u ≠ "")
    (h : execMain (replaceFirst ipfsSchemeChars u.data) = none) :
    extractCID (some u) = .throws := by
  simp only [extractCID]
  rw [if_neg hne, h]

theorem dwebPass_not_dweb {cid : List Char} (h : dwebEndChars.isSuffixOf cid = false) :
    dwebPass cid = .retStr (String.mk cid) := by
  simp [dwebPass, h]

theorem dwebPass_dweb {cid g : List Char} (h : dwebEndChars.isSuffixOf cid = true)
    (h2 : execDweb cid = some g) : dwebPass cid = .retStr (String.mk g) := by
  simp [dwebPass, h, h2]

theorem kOk_eq_true_iff {tail : List Char} {k : Nat} :
    kOk tail k = true ↔
      1 ≤ k ∧ (tail.take k).all (fun c => c != '?') = true ∧
      slashIpfsChars.isPrefixOf (tail.drop k) = true ∧
      ((tail.drop (k + 6)).headD '?' != '?') = true := by
  simp [kOk, and_assoc]

theorem dwebOk_eq_true_iff {tail : List Char} {k : Nat} :
    dwebOk tail k = true ↔
      1 ≤ k ∧ (tail.take k).all (fun c => c != '?') = true ∧
      dwebSfxChars.isPrefixOf (tail.drop k) = true := by
  simp [dwebOk, and_assoc]

/-! ## The four supported URL shapes -/

theorem extractCID_cleaned_bare {u X : String} (hneu : u ≠ "")
    (hrep : replaceFirst ipfsSchemeChars u.data = X.data)
    (hne : X ≠ "") (hc : ∀ c ∈ X.data, c ≠ '?' ∧ c ≠ '/') :
    extractCID (some u) = .retStr X := by
  have hnp : httpsChars.isPrefixOf X.data = false := by
    cases hb : httpsChars.isPrefixOf X.data with
    | false => rfl
    | true =>
      have hmem := mem_of_isPrefixOf hb '/' (by decide)
      exact absurd rfl ((hc '/' hmem).2)
  have hmain : execMain X.data = some X.data := by
    cases hXd : X.data with
    | nil => exact absurd hXd (string_data_ne_nil hne)
    | cons x xs =>
      have hx : x ≠ '?' := (hc x (by rw [hXd]; exact List.mem_cons_self _ _)).1
      rw [execMain_of_head_ne hx, ← hXd,
        mainAt_plain hnp, takeWhile_of_all (fun c hcc => by simp [(hc c hcc).1])]
  have hsfx : dwebEndChars.isSuffixOf X.data = false := by
    cases hb : dwebEndChars.isSuffixOf X.data with
    | false => rfl
    | true =>
      have hmem := mem_of_isSuffixOf hb '/' (by decide)
      exact absurd rfl ((hc '/' hmem).2)
  have h' : execMain (replaceFirst ipfsSchemeChars u.data) = some X.data := by
    rw [hrep]; exact hmain
  rw [extractCID_eq_dwebPass hneu h', dwebPass_not_dweb hsfx]

theorem extractCID_bare (X : String) (hne : X ≠ "")
    (hc : ∀ c ∈ X.data, c ≠ '?' ∧ c ≠ '/') :
    extractCID (some X) = .retStr X :=
  extractCID_cleaned_bare hne
    (replaceFirst_of_not_mem (x := '/') (by decide) (fun c hc2 => (hc c hc2).2))
    hne hc

theorem extractCID_scheme (X : String) (hne : X ≠ "")
    (hc : ∀ c ∈ X.data, c ≠ '?' ∧ c ≠ '/') :
    extractCID (some ("ipfs://" ++ X)) = .retStr X := by
  have hdata : ("ipfs://" ++ X).data = ipfsSchemeChars ++ X.data :=
    String.data_append _ _
  have hneu : ("ipfs://" ++ X : String) ≠ "" := by
    intro h
    have hlen := congrArg List.length (congrArg String.data h)
    rw [hdata] at hlen
    rw [List.length_append, show ipfsSchemeChars.length = 7 from rfl] at hlen
    simp at hlen
  refine extractCID_cleaned_bare hneu ?_ hne hc
  rw [hdata]
  exact replaceFirst_head_match _ _ (by decide)

theorem extractCID_gateway (X gw : String) (hX : X ≠ "")
    (hXc : ∀ c ∈ X.data, c ≠ '?' ∧ c ≠ '/' ∧ c ≠ ':')
    (hgw : gw ≠ "")
    (hgwc : ∀ c ∈ gw.data, c ≠ '?' ∧ c ≠ '/' ∧ c ≠ ':') :
    extractCID (some ("https://" ++ gw ++ "/ipfs/" ++ X ++ "?q=1")) = .retStr X := by
  have hdata : ("https://" ++ gw ++ "/ipfs/" ++ X ++ "?q=1").data
      = httpsChars ++ (gw.data ++ (slashIpfsChars ++ (X.data ++ qChars))) := by
    simp only [String.data_append, List.append_assoc]
    rfl
  obtain ⟨x, xs, hXd⟩ : ∃ x xs, X.data = x :: xs := by
    cases h : X.data with
    | nil => exact absurd h (string_data_ne_nil hX)
    | cons a l => exact ⟨a, l, rfl⟩
  have h4 : (gw.data ++ (slashIpfsChars ++ (X.data ++ qChars))).drop (gw.data.length + 6)
      = X.data ++ qChars := by
    rw [show gw.data ++ (slashIpfsChars ++ (X.data ++ qChars))
        = (gw.data ++ slashIpfsChars) ++ (X.data ++ qChars) from
      (List.append_assoc _ _ _).symm]
    exact List.drop_left' (by rw [List.length_append]; rfl)
  have hk : kOk (gw.data ++ (slashIpfsChars ++ (X.data ++ qChars))) gw.data.length = true := by
    rw [kOk_eq_true_iff]
    refine ⟨List.length_pos.mpr (string_data_ne_nil hgw), ?_, ?_, ?_⟩
    · rw [List.take_left, List.all_eq_true]
      intro c hcm
      simp [(hgwc c hcm).1]
    · rw [List.drop_left]
      exact isPrefixOf_append_self _ _
    · rw [h4, hXd, List.cons_append]
      simp [(hXc x (by rw [hXd]; exact List.mem_cons_self _ _)).1]
  have huniq : ∀ k, kOk (gw.data ++ (slashIpfsChars ++ (X.data ++ qChars))) k = true →
      k = gw.data.length := by
    intro k hkk
    rw [kOk_eq_true_iff] at hkk
    obtain ⟨-, -, hk3, -⟩ := hkk
    have hk3' : ('/' :: "ipfs/".data).isPrefixOf
        ((gw.data ++ (slashIpfsChars ++ (X.data ++ qChars))).drop k) = true := hk3
    obtain ⟨hle1, hpre1⟩ :=
      isPrefixOf_drop_append (fun c hcm => (hgwc c hcm).2.1) hk3'
    cases hjc : k - gw.data.length with
    | zero => omega
    | succ j =>
      rw [hjc, show slashIpfsChars ++ (X.data ++ qChars)
          = '/' :: (['i', 'p', 'f', 's'] ++ ('/' :: (X.data ++ qChars))) from rfl,
        List.drop_succ_cons] at hpre1
      obtain ⟨hle2, hpre2⟩ :=
        isPrefixOf_drop_append (l := ['i', 'p', 'f', 's']) (by decide) hpre1
      rw [show (['i', 'p', 'f', 's'] : List Char).length = 4 from rfl] at hle2 hpre2
      cases hmc : j - 4 with
      | zero =>
        rw [hmc, List.drop_zero, List.isPrefixOf_cons₂, Bool.and_eq_true] at hpre2
        have hmem := mem_of_isPrefixOf hpre2.2 '/' (by decide)
        rcases List.mem_append.mp hmem with hmm | hmm
        · exact absurd rfl ((hXc '/' hmm).2.1)
        · exact absurd hmm (by decide)
      | succ m =>
        rw [hmc, List.drop_succ_cons] at hpre2
        obtain ⟨hle3, hpre3⟩ :=
          isPrefixOf_drop_append (fun c hcm => (hXc c hcm).2.1) hpre2
        have hmem := mem_of_isPrefixOf hpre3 '/' (List.mem_cons_self _ _)
        exact absurd (List.mem_of_mem_drop hmem) (by decide)
  have hgroup : groupOneK (gw.data ++ (slashIpfsChars ++ (X.data ++ qChars)))
      = some gw.data.length :=
    groupOneK_eq_some hk huniq (by rw [List.length_append]; omega)
  have hmain : execMain (httpsChars ++ (gw.data ++ (slashIpfsChars ++ (X.data ++ qChars))))
      = some X.data := by
    rw [show httpsChars ++ (gw.data ++ (slashIpfsChars ++ (X.data ++ qChars)))
        = 'h' :: ("ttps://".data ++ (gw.data ++ (slashIpfsChars ++ (X.data ++ qChars))))
      from rfl]
    rw [execMain_of_head_ne (by decide)]
    rw [show ('h' :: ("ttps://".data ++ (gw.data ++ (slashIpfsChars ++ (X.data ++ qChars)))))
        = httpsChars ++ (gw.data ++ (slashIpfsChars ++ (X.data ++ qChars))) from rfl]
    rw [mainAt_https]
    simp only [hgroup]
    rw [h4, hXd, show qChars = '?' :: ('q' :: '=' :: '1' :: []) from rfl]
    rw [takeWhile_append_stop
      (fun d hd => by simp [(hXc d (by rw [hXd]; exact hd)).1]) (by decide)]
  have hsfx : dwebEndChars.isSuffixOf X.data = false := by
    cases hb : dwebEndChars.isSuffixOf X.data with
    | false => rfl
    | true =>
      have hmem := mem_of_isSuffixOf hb '/' (by decide)
      exact absurd rfl ((hXc '/' hmem).2.1)
  have hneu : ("https://" ++ gw ++ "/ipfs/" ++ X ++ "?q=1" : String) ≠ "" := by
    intro h
    have hd := congrArg String.data h
    rw [hdata] at hd
    have hlen := congrArg List.length hd
    rw [List.length_append, show httpsChars.length = 8 from rfl,
      show ("" : String).data.length = 0 from rfl] at hlen
    omega
  have hrep : replaceFirst ipfsSchemeChars
      (("https://" ++ gw ++ "/ipfs/" ++ X ++ "?q=1").data)
      = ("https://" ++ gw ++ "/ipfs/" ++ X ++ "?q=1").data := by
    rw [hdata]
    refine replaceFirst_https ?_
    intro c hcm
    rcases List.mem_append.mp hcm with h1 | h1
    · exact (hgwc c h1).2.2
    rcases List.mem_append.mp h1 with h2 | h2
    · exact (by decide : ∀ d ∈ slashIpfsChars, d ≠ ':') c h2
    rcases List.mem_append.mp h2 with h3 | h3
    · exact (hXc c h3).2.2
    · exact (by decide : ∀ d ∈ qChars, d ≠ ':') c h3
  have hexec : execMain (replaceFirst ipfsSchemeChars
      (("https://" ++ gw ++ "/ipfs/" ++ X ++ "?q=1").data)) = some X.data := by
    rw [hrep, hdata]
    exact hmain
  rw [extractCID_eq_dwebPass hneu hexec, dwebPass_not_dweb hsfx]

theorem execDweb_cons (c : Char) (cs : List Char) :
    execDweb (c :: cs) =
      match dwebAt (c :: cs) with
      | some g => some g
      | none => execDweb cs := rfl

theorem extractCID_dweb (X : String) (hX : X ≠ "")
    (hXc : ∀ c ∈ X.data, c ≠ '?' ∧ c ≠ '/' ∧ c ≠ ':' ∧ c ≠ '.') :
    extractCID (some ("https://" ++ X ++ ".ipfs.dweb.link/")) = .retStr X := by
  have hdata : ("https://" ++ X ++ ".ipfs.dweb.link/").data
      = httpsChars ++ (X.data ++ dwebSfxChars) := by
    simp only [String.data_append, List.append_assoc]
    rfl
  have hnone : groupOneK (X.data ++ dwebSfxChars) = none := by
    apply groupOneK_eq_none
    intro k
    cases hb : kOk (X.data ++ dwebSfxChars) k with
    | false => rfl
    | true =>
      exfalso
      rw [kOk_eq_true_iff] at hb
      obtain ⟨-, -, hk3, -⟩ := hb
      have hk3' : ('/' :: "ipfs/".data).isPrefixOf
          ((X.data ++ dwebSfxChars).drop k) = true := hk3
      obtain ⟨hle1, hpre1⟩ :=
        isPrefixOf_drop_append (fun c hcm => (hXc c hcm).2.1) hk3'
      rw [show dwebSfxChars = ".ipfs.dweb.link".data ++ ['/'] from rfl] at hpre1
      obtain ⟨hle2, hpre2⟩ :=
        isPrefixOf_drop_append (l := ".ipfs.dweb.link".data) (by decide) hpre1
      have hlen := length_le_of_isPrefixOf hpre2
      rw [List.length_drop, show ('/' :: "ipfs/".data).length = 6 from rfl,
        show (['/'] : List Char).length = 1 from rfl] at hlen
      omega
  have hall : ∀ c ∈ httpsChars ++ (X.data ++ dwebSfxChars), (c != '?') = true := by
    intro c hcm
    rcases List.mem_append.mp hcm with h1 | h1
    · exact (by decide : ∀ d ∈ httpsChars, (d != '?') = true) c h1
    rcases List.mem_append.mp h1 with h2 | h2
    · simp [(hXc c h2).1]
    · exact (by decide : ∀ d ∈ dwebSfxChars, (d != '?') = true) c h2
  have hmain : execMain (httpsChars ++ (X.data ++ dwebSfxChars))
      = some (httpsChars ++ (X.data ++ dwebSfxChars)) := by
    rw [show httpsChars ++ (X.data ++ dwebSfxChars)
        = 'h' :: ("ttps://".data ++ (X.data ++ dwebSfxChars)) from rfl]
    rw [execMain_of_head_ne (by decide)]
    rw [show ('h' :: ("ttps://".data ++ (X.data ++ dwebSfxChars)))
        = httpsChars ++ (X.data ++ dwebSfxChars) from rfl]
    rw [mainAt_https]
    simp only [hnone]
    rw [takeWhile_of_all hall]
  have hsfx : dwebEndChars.isSuffixOf (httpsChars ++ (X.data ++ dwebSfxChars)) = true := by
    rw [show httpsChars ++ (X.data ++ dwebSfxChars)
        = (httpsChars ++ (X.data ++ ['.'])) ++ dwebEndChars from by
      rw [show dwebSfxChars = ['.'] ++ dwebEndChars from rfl]
      simp [List.append_assoc]]
    exact isSuffixOf_append_self _ _
  have hdOk : dwebOk (X.data ++ dwebSfxChars) X.data.length = true := by
    rw [dwebOk_eq_true_iff]
    refine ⟨List.length_pos.mpr (string_data_ne_nil hX), ?_, ?_⟩
    · rw [List.take_left, List.all_eq_true]
      intro c hcm
      simp [(hXc c hcm).1]
    · rw [List.drop_left]
      exact isPrefixOf_self _
  have hdUniq : ∀ k, dwebOk (X.data ++ dwebSfxChars) k = true → k = X.data.length := by
    intro k hkk
    rw [dwebOk_eq_true_iff] at hkk
    obtain ⟨-, -, hk3⟩ := hkk
    have hk3' : ('.' :: "ipfs.dweb.link/".data).isPrefixOf
        ((X.data ++ dwebSfxChars).drop k) = true := hk3
    obtain ⟨hle1, hpre1⟩ :=
      isPrefixOf_drop_append (fun c hcm => (hXc c hcm).2.2.2) hk3'
    have hlen := length_le_of_isPrefixOf hpre1
    rw [List.length_drop, show ('.' :: "ipfs.dweb.link/".data).length = 16 from rfl,
      show dwebSfxChars.length = 16 from rfl] at hlen
    omega
  have hdK : dwebK (X.data ++ dwebSfxChars) = some X.data.length :=
    dwebK_eq_some hdOk hdUniq (by rw [List.length_append]; omega)
  have hdAt : dwebAt (httpsChars ++ (X.data ++ dwebSfxChars)) = some X.data := by
    unfold dwebAt
    rw [if_pos (isPrefixOf_append_self _ _),
      List.drop_left' (show httpsChars.length = 8 from rfl)]
    simp only [hdK]
    rw [List.take_left]
  have hdweb : execDweb (httpsChars ++ (X.data ++ dwebSfxChars)) = some X.data := by
    rw [show httpsChars ++ (X.data ++ dwebSfxChars)
        = 'h' :: ("ttps://".data ++ (X.data ++ dwebSfxChars)) from rfl,
      execDweb_cons]
    rw [show ('h' :: ("ttps://".data ++ (X.data ++ dwebSfxChars)))
        = httpsChars ++ (X.data ++ dwebSfxChars) from rfl]
    simp only [hdAt]
  have hneu : ("https://" ++ X ++ ".ipfs.dweb.link/" : String) ≠ "" := by
    intro h
    have hd := congrArg String.data h
    rw [hdata] at hd
    have hlen := congrArg List.length hd
    rw [List.length_append, show httpsChars.length = 8 from rfl,
      show ("" : String).data.length = 0 from rfl] at hlen
    omega
  have hrep : replaceFirst ipfsSchemeChars (("https://" ++ X ++ ".ipfs.dweb.link/").data)
      = ("https://" ++ X ++ ".ipfs.dweb.link/").data := by
    rw [hdata]
    refine replaceFirst_https ?_
    intro c hcm
    rcases List.mem_append.mp hcm with h1 | h1
    · exact (hXc c h1).2.2.1
    · exact (by decide : ∀ d ∈ dwebSfxChars, d ≠ ':') c h1
  have hexec : execMain (replaceFirst ipfsSchemeChars
      (("https://" ++ X ++ ".ipfs.dweb.link/").data))
      = some (httpsChars ++ (X.data ++ dwebSfxChars)) := by
    rw [hrep, hdata]
    exact hmain
  rw [extractCID_eq_dwebPass hneu hexec, dwebPass_dweb hsfx hdweb]

theorem dropWhile_ne_nil_of_mem {p : Char → Bool} :
    ∀ {l : List Char} {c : Char}, c ∈ l → p c = false → l.dropWhile p ≠ [] := by
  intro l
  induction l with
  | nil =>
    intro c hc
    exact absurd hc (List.not_mem_nil _)
  | cons a l ih =>
    intro c hc hpc
    by_cases hpa : p a = true
    · rw [List.dropWhile_cons_of_pos hpa]
      rcases List.mem_cons.mp hc with rfl | hc'
      · exact absurd hpa (by simp [hpc])
      · exact ih hc' hpc
    · rw [List.dropWhile_cons_of_neg hpa]
      simp

theorem dwebPass_ne_throws (cid : List Char) : dwebPass cid ≠ .throws := by
  unfold dwebPass
  by_cases h : dwebEndChars.isSuffixOf cid = true
  · rw [if_pos h]
    cases execDweb cid <;> simp
  · rw [if_neg h]
    simp

/-! ## Claim theorems for the CID extractor -/

/-- C1: for every URL of the supported shapes — `ipfs://X`, an HTTP gateway
path form with query string, a dweb subdomain form, and a bare CID with no
scheme and no slashes — `extractCID` returns exactly `X`.  `X` and the
gateway host are nonempty and drawn from CID/host characters (no `?`, `/`,
`:` or `.`). -/
theorem c1_extractCID_supported_shapes (X gw : String)
    (hX : X ≠ "") (hXc : ∀ c ∈ X.data, c ≠ '?' ∧ c ≠ '/' ∧ c ≠ ':' ∧ c ≠ '.')
    (hgw : gw ≠ "") (hgwc : ∀ c ∈ gw.data, c ≠ '?' ∧ c ≠ '/' ∧ c ≠ ':' ∧ c ≠ '.') :
    extractCID (some ("ipfs://" ++ X)) = .retStr X ∧
    extractCID (some ("https://" ++ gw ++ "/ipfs/" ++ X ++ "?q=1")) = .retStr X ∧
    extractCID (some ("https://" ++ X ++ ".ipfs.dweb.link/")) = .retStr X ∧
    extractCID (some X) = .retStr X :=
  ⟨extractCID_scheme X hX (fun c h => ⟨(hXc c h).1, (hXc c h).2.1⟩),
   extractCID_gateway X gw hX (fun c h => ⟨(hXc c h).1, (hXc c h).2.1, (hXc c h).2.2.1⟩)
     hgw (fun c h => ⟨(hgwc c h).1, (hgwc c h).2.1, (hgwc c h).2.2.1⟩),
   extractCID_dweb X hX hXc,
   extractCID_bare X hX (fun c h => ⟨(hXc c h).1, (hXc c h).2.1⟩)⟩

/-- Witness for C1 at the concrete CID `QmAbC123` and host `gatewayio`. -/
theorem c1_witness :
    extractCID (some "ipfs://QmAbC123") = .retStr "QmAbC123" ∧
    extractCID (some "https://gatewayio/ipfs/QmAbC123?q=1") = .retStr "QmAbC123" ∧
    extractCID (some "https://QmAbC123.ipfs.dweb.link/") = .retStr "QmAbC123" ∧
    extractCID (some "QmAbC123") = .retStr "QmAbC123" :=
  c1_extractCID_supported_shapes "QmAbC123" "gatewayio"
    (by decide) (by decide) (by decide) (by decide)

/-- C10: `extractCID` of `null` returns `null`, and of the empty string
behaves identically (returns `null`, not an error). -/
theorem c10_extractCID_null_and_empty :
    extractCID none = .retNull ∧ extractCID (some "") = .retNull :=
  ⟨by decide, by decide⟩

/-- C7 counterexample: on input `"?"` the method throws (the main regular
expression finds no match, so `cid` is `undefined` and `cid.endsWith`
raises a TypeError), and on the malformed input `"a?b"` it returns `"a"`,
not the cleaned input string `"a?b"` itself. -/
theorem c7_counterexample :
    extractCID (some "?") = .throws ∧
    extractCID (some "a?b") = .retStr "a" ∧
    replaceFirst ipfsSchemeChars ("a?b".data) = "a?b".data ∧
    ("a" : String) ≠ "a?b" :=
  ⟨by decide, by decide, by decide, by decide⟩

/-- C7 (amended): for every non-null, non-empty input whose scheme-stripped
form contains at least one character other than `?`, `extractCID`
terminates normally (does not throw); if moreover the cleaned form has no
`?` at all, does not complete the `https://…/ipfs/…` capture, and does not
end with `ipfs.dweb.link/`, the cleaned input is returned verbatim. -/
theorem c7_extractCID_no_throw_amended (u : String) (h1 : u ≠ "")
    (h2 : ∃ c ∈ replaceFirst ipfsSchemeChars u.data, c ≠ '?') :
    extractCID (some u) ≠ .throws ∧
    ((∀ c ∈ replaceFirst ipfsSchemeChars u.data, c ≠ '?') →
     (httpsChars.isPrefixOf (replaceFirst ipfsSchemeChars u.data) = true →
       groupOneK ((replaceFirst ipfsSchemeChars u.data).drop 8) = none) →
     dwebEndChars.isSuffixOf (replaceFirst ipfsSchemeChars u.data) = false →
     extractCID (some u) = .retStr (String.mk (replaceFirst ipfsSchemeChars u.data))) := by
  obtain ⟨c0, hc0m, hc0q⟩ := h2
  have hnn : execMain (replaceFirst ipfsSchemeChars u.data) ≠ none := by
    unfold execMain
    cases hdwc : (replaceFirst ipfsSchemeChars u.data).dropWhile (fun c => c == '?') with
    | nil => exact absurd hdwc (dropWhile_ne_nil_of_mem hc0m (by simp [hc0q]))
    | cons d ds => simp
  constructor
  · cases hE : execMain (replaceFirst ipfsSchemeChars u.data) with
    | none => exact absurd hE hnn
    | some cid =>
      rw [extractCID_eq_dwebPass h1 hE]
      exact dwebPass_ne_throws cid
  · intro hq hg hs
    obtain ⟨d, ds, hdc⟩ : ∃ d ds, replaceFirst ipfsSchemeChars u.data = d :: ds := by
      cases h : replaceFirst ipfsSchemeChars u.data with
      | nil =>
        rw [h] at hc0m
        exact absurd hc0m (List.not_mem_nil _)
      | cons a l => exact ⟨a, l, rfl⟩
    rw [hdc] at hq hg hs
    have hd : d ≠ '?' := hq d (List.mem_cons_self _ _)
    have hMA : mainAt (d :: ds) = d :: ds := by
      by_cases hp : httpsChars.isPrefixOf (d :: ds) = true
      · unfold mainAt
        rw [if_pos hp, hg hp]
        exact takeWhile_of_all (fun c hcm => by simp [hq c hcm])
      · have hp' : httpsChars.isPrefixOf (d :: ds) = false := by
          cases hb : httpsChars.isPrefixOf (d :: ds) with
          | false => rfl
          | true => exact absurd hb hp
        rw [mainAt_plain hp']
        exact takeWhile_of_all (fun c hcm => by simp [hq c hcm])
    have hexec : execMain (replaceFirst ipfsSchemeChars u.data)
        = some (replaceFirst ipfsSchemeChars u.data) := by
      rw [hdc, execMain_of_head_ne hd, hMA]
    rw [extractCID_eq_dwebPass h1 hexec, hdc]
    exact dwebPass_not_dweb hs

/-- Witness for the amended C7 at the bare input `"hello"`. -/
theorem c7_witness :
    extractCID (some "hello") ≠ .throws ∧
    extractCID (some "hello") = .retStr "hello" := by
  have h := c7_extractCID_no_throw_amended "hello" (by decide) (by decide)
  exact ⟨h.1, h.2 (by decide) (by decide) (by decide)⟩

/-! ## Claim theorem for the fan-out read -/

/-- C2: the fan-out read of `_Gateway.get` returns the first successful
result for any interleaving of completions — in particular, over the source
set consisting of an always-failing and an always-succeeding gateway it
returns `"A"` for every settlement order — and it rejects with the
aggregate `ContentUnavailable`-style failure if and only if every gateway
fails. -/
theorem c2_fanout_first_success :
    (∀ (e : String) (order : List Nat), order.Perm [0, 1] →
      Gateway.get
        { gatewaysUrls := ["gwF/", "gwS/"],
          httpGet := fun u => if u = "gwS/c" then .ok "A" else .err e }
        "c" order = .ok "A") ∧
    (∀ (env : GwEnv) (CID : String) (order : List Nat),
      order.Perm (List.range env.gatewaysUrls.length) →
      ((∃ es, Gateway.get env CID order = .contentUnavailable es) ↔
        ∀ gateway ∈ env.gatewaysUrls, ∃ e, env.httpGet (gateway ++ CID) = .err e)) ∧
    (∀ (env : GwEnv) (CID : String) (pre post : List Nat) (i : Nat) (v : String),
      (∀ j ∈ pre, ∀ w,
        (env.gatewaysUrls.map (fun g => env.httpGet (g ++ CID)))[j]? ≠ some (.ok w)) →
      (env.gatewaysUrls.map (fun g => env.httpGet (g ++ CID)))[i]? = some (.ok v) →
      Gateway.get env CID (pre ++ i :: post) = .ok v) := by
  refine ⟨?_, ?_, ?_⟩
  · intro e order hperm
    show promiseAny (["gwF/", "gwS/"].map (fun gateway =>
      if (gateway ++ "c" : String) = "gwS/c" then Res.ok "A" else Res.err e)) order
      = .ok "A"
    rw [List.map_cons, List.map_cons, List.map_nil,
      if_neg (by decide : ¬("gwF/" ++ "c" : String) = "gwS/c"),
      if_pos (by decide : ("gwS/" ++ "c" : String) = "gwS/c")]
    unfold promiseAny
    have hfind : order.findSome? (fun i =>
        match ([Res.err e, Res.ok "A"] : List (Res String))[i]? with
        | some (Res.ok v) => some v
        | _ => none) = some "A" := by
      apply findSome?_of_unique
      · intro i hi
        have hi2 : i ∈ [0, 1] := hperm.mem_iff.mp hi
        rcases List.mem_cons.mp hi2 with rfl | hi3
        · exact Or.inl rfl
        rcases List.mem_cons.mp hi3 with rfl | hi4
        · exact Or.inr rfl
        · exact absurd hi4 (List.not_mem_nil _)
      · exact ⟨1, hperm.mem_iff.mpr (by simp), rfl⟩
    rw [hfind]
  · intro env CID order hperm
    unfold Gateway.get promiseAny
    constructor
    · rintro ⟨es, hes⟩ gateway hg
      cases hf : order.findSome? (fun i =>
          match (env.gatewaysUrls.map (fun g => env.httpGet (g ++ CID)))[i]? with
          | some (Res.ok v) => some v
          | _ => none) with
      | some v =>
        rw [hf] at hes
        simp at hes
      | none =>
        have hall := List.findSome?_eq_none_iff.mp hf
        obtain ⟨i, hlt, hig⟩ := List.mem_iff_getElem.mp hg
        have hio : i ∈ order := hperm.mem_iff.mpr (List.mem_range.mpr hlt)
        have hfi := hall i hio
        have hai : (env.gatewaysUrls.map (fun g => env.httpGet (g ++ CID)))[i]?
            = some (env.httpGet (gateway ++ CID)) := by
          rw [List.getElem?_map, List.getElem?_eq_getElem hlt, hig]
          rfl
        rw [hai] at hfi
        cases hres : env.httpGet (gateway ++ CID) with
        | ok v =>
          rw [hres] at hfi
          simp at hfi
        | err e2 => exact ⟨e2, rfl⟩
    · intro hall
      have hf : order.findSome? (fun i =>
          match (env.gatewaysUrls.map (fun g => env.httpGet (g ++ CID)))[i]? with
          | some (Res.ok v) => some v
          | _ => none) = none := by
        rw [List.findSome?_eq_none_iff]
        intro i hio
        have hir : i < env.gatewaysUrls.length := List.mem_range.mp (hperm.mem_iff.mp hio)
        obtain ⟨g, hg2⟩ : ∃ g, env.gatewaysUrls[i]? = some g := by
          rw [List.getElem?_eq_getElem hir]
          exact ⟨_, rfl⟩
        obtain ⟨e, he⟩ := hall g (List.mem_iff_getElem?.mpr ⟨i, hg2⟩)
        have hai : (env.gatewaysUrls.map (fun g2 => env.httpGet (g2 ++ CID)))[i]?
            = some (env.httpGet (g ++ CID)) := by
          rw [List.getElem?_map, hg2]
          rfl
        rw [hai, he]
      rw [hf]
      exact ⟨_, rfl⟩
  · intro env CID pre post i v hpre hi
    unfold Gateway.get promiseAny
    have hf : (pre ++ i :: post).findSome? (fun j =>
        match (env.gatewaysUrls.map (fun g => env.httpGet (g ++ CID)))[j]? with
        | some (Res.ok w) => some w
        | _ => none) = some v := by
      rw [List.findSome?_append]
      have hfp : pre.findSome? (fun j =>
          match (env.gatewaysUrls.map (fun g => env.httpGet (g ++ CID)))[j]? with
          | some (Res.ok w) => some w
          | _ => none) = none := by
        rw [List.findSome?_eq_none_iff]
        intro j hj
        cases haj : (env.gatewaysUrls.map (fun g => env.httpGet (g ++ CID)))[j]? with
        | none => rfl
        | some r =>
          cases r with
          | ok w => exact absurd haj (hpre j hj w)
          | err e2 => rfl
      rw [hfp, Option.none_or, List.findSome?_cons, hi]
    rw [hf]

/-- Witness for C2: a concrete two-gateway race returning `"A"` in an
order where the failing request settles last, and a concrete all-fail race
producing the aggregate failure. -/
theorem c2_witness :
    Gateway.get
      { gatewaysUrls := ["gwF/", "gwS/"],
        httpGet := fun u => if u = "gwS/c" then .ok "A" else .err "boom" }
      "c" [1, 0] = .ok "A" ∧
    (∃ es, Gateway.get
      { gatewaysUrls := ["g/"], httpGet := fun _ => .err "down" }
      "c" [0] = .contentUnavailable es) := by
  constructor
  · exact c2_fanout_first_success.1 "boom" [1, 0] (by decide)
  · exact (c2_fanout_first_success.2.1
      { gatewaysUrls := ["g/"], httpGet := fun _ => .err "down" } "c" [0]
      (by decide)).mpr (fun gateway _ => ⟨"down", rfl⟩)

/-! ## Claim theorems for the pin ledger -/

/-- C3: `unpin` fails with `NotFound` when no `PinRecord` exists for the
cid; fails with `Unauthorized` when the record's owner differs from the
caller's wallet; and otherwise (the backing removal succeeding) removes the
backing pin, deletes the `PinRecord`, and returns `true`. -/
theorem c3_unpin_semantics (st : NodeState) (cid caller : String) (rmOk : Bool) :
    (findOne st.ledger cid = none → unpin st cid caller rmOk = (st, .err .notPinned)) ∧
    (∀ r, findOne st.ledger cid = some r → r.owner ≠ caller →
      unpin st cid caller rmOk = (st, .err .unauthorized)) ∧
    (∀ r, findOne st.ledger cid = some r → r.owner = caller → rmOk = true →
      unpin st cid caller rmOk =
        ({ backingPins := st.backingPins.erase cid,
           ledger := st.ledger.eraseP (fun p => p.cid == cid) }, .ok true) ∧
      (st.ledger.eraseP (fun p => p.cid == cid)).length + 1 = st.ledger.length) := by
  refine ⟨?_, ?_, ?_⟩
  · intro h
    unfold unpin
    rw [h]
  · intro r hr hown
    unfold unpin
    simp only [hr]
    rw [if_pos hown]
  · intro r hr hown hrm
    subst hrm
    constructor
    · unfold unpin
      simp only [hr]
      rw [if_neg (by simp [hown])]
      simp
    · have hr' : List.find? (fun p => p.cid == cid) st.ledger = some r := hr
      have hmem := List.mem_of_find?_eq_some hr'
      have hp := List.find?_some (p := fun q : PinRecord => q.cid == cid) hr'
      have hlen := List.length_eraseP_of_mem (p := fun q : PinRecord => q.cid == cid) hmem hp
      have hpos : 0 < st.ledger.length := by
        cases hl : st.ledger with
        | nil =>
          rw [hl] at hmem
          exact absurd hmem (List.not_mem_nil _)
        | cons a l => simp
      omega

/-- Witness for C3: a never-pinned cid fails with `NotFound`; a non-owner
fails with `Unauthorized`; the owner unpins successfully. -/
theorem c3_witness :
    unpin { backingPins := [], ledger := [] } "QmZ" "alice" true
      = ({ backingPins := [], ledger := [] }, .err .notPinned) ∧
    unpin { backingPins := ["Qm1"],
            ledger := [{ cid := "Qm1", owner := "alice", timestamp := 5 }] }
      "Qm1" "bob" true
      = ({ backingPins := ["Qm1"],
           ledger := [{ cid := "Qm1", owner := "alice", timestamp := 5 }] },
         .err .unauthorized) ∧
    unpin { backingPins := ["Qm1"],
            ledger := [{ cid := "Qm1", owner := "alice", timestamp := 5 }] }
      "Qm1" "alice" true
      = ({ backingPins := [], ledger := [] }, .ok true) := by
  refine ⟨?_, ?_, ?_⟩
  · exact (c3_unpin_semantics _ "QmZ" "alice" true).1 (by decide)
  · exact (c3_unpin_semantics _ "Qm1" "bob" true).2.1
      { cid := "Qm1", owner := "alice", timestamp := 5 } (by decide) (by decide)
  · exact ((c3_unpin_semantics _ "Qm1" "alice" true).2.2
      { cid := "Qm1", owner := "alice", timestamp := 5 } (by decide) rfl rfl).1

/-- C4: `unpin` is atomic on failure: every failing call leaves the state
unchanged; an `Unauthorized` failure leaves the record present and still
owned by the original owner; a failed backing removal (`client.pin.rm`) is
attempted before the ledger deletion, so the `PinRecord` is not deleted. -/
theorem c4_unpin_atomic_on_failure (st : NodeState) (cid caller : String) (rmOk : Bool) :
    (∀ e, (unpin st cid caller rmOk).2 = .err e → (unpin st cid caller rmOk).1 = st) ∧
    (∀ r, findOne st.ledger cid = some r → r.owner ≠ caller →
      (unpin st cid caller rmOk).2 = .err .unauthorized ∧
      findOne (unpin st cid caller rmOk).1.ledger cid = some r) ∧
    (∀ r, findOne st.ledger cid = some r → r.owner = caller → rmOk = false →
      (unpin st cid caller rmOk).2 = .err .backendError ∧
      (unpin st cid caller rmOk).1 = st) := by
  refine ⟨?_, ?_, ?_⟩
  · intro e he
    unfold unpin at he ⊢
    cases hf : findOne st.ledger cid with
    | none => simp only [hf]
    | some r =>
      simp only [hf] at he ⊢
      by_cases hown : r.owner ≠ caller
      · rw [if_pos hown]
      · rw [if_neg hown] at he ⊢
        cases hrm : rmOk with
        | true =>
          rw [hrm] at he
          simp at he
        | false => simp
  · intro r hr hown
    unfold unpin
    simp only [hr]
    rw [if_pos hown]
    exact ⟨rfl, hr⟩
  · intro r hr hown hrm
    subst hrm
    unfold unpin
    simp only [hr]
    rw [if_neg (by simp [hown])]
    exact ⟨rfl, rfl⟩

/-- Witness for C4: a failed backing removal for the rightful owner leaves
the outcome `backendError` and the state unchanged. -/
theorem c4_witness :
    (unpin { backingPins := ["Qm1"],
             ledger := [{ cid := "Qm1", owner := "alice", timestamp := 0 }] }
       "Qm1" "alice" false).2 = .err .backendError ∧
    (unpin { backingPins := ["Qm1"],
             ledger := [{ cid := "Qm1", owner := "alice", timestamp := 0 }] }
       "Qm1" "alice" false).1
      = { backingPins := ["Qm1"],
          ledger := [{ cid := "Qm1", owner := "alice", timestamp := 0 }] } :=
  (c4_unpin_atomic_on_failure _ "Qm1" "alice" false).2.2
    { cid := "Qm1", owner := "alice", timestamp := 0 } (by decide) rfl rfl

/-- C5 (code evaluated at the failing input): `pin` writes the ledger with
an unconditional `pinModel.create` and no per-cid uniqueness, so pinning
the same content twice (content addressing yields the same CID) leaves two
ledger records for that CID — violating the at-most-one-record invariant. -/
theorem c5_duplicate_pin_records :
    recordsFor
      (pin { addCid := fun _ => "Qm1", now := 0 }
        (pin { addCid := fun _ => "Qm1", now := 0 }
          { backingPins := [], ledger := [] } "hello" "alice" false).1
        "hello" "alice" false).1.ledger
      "Qm1" = 2 := by decide

/-- C6 (code evaluated at the failing input): `pin` with `broadcast = true`
emits exactly one event, on the topic `ipfs:write`, while the replication
listener subscribes to `ipfs:broadcast:write`; the topics differ, so the
emitted signal is never delivered to the listener. -/
theorem c6_broadcast_never_received :
    (pin { addCid := fun _ => "Qm1", now := 0 } { backingPins := [], ledger := [] }
        "hello" "alice" true).2.2
      = [{ topic := "ipfs:write", content := "hello", ownerWalletId := "alice" }] ∧
    deliveredToListener
      (pin { addCid := fun _ => "Qm1", now := 0 } { backingPins := [], ledger := [] }
        "hello" "alice" true).2.2 = [] ∧
    pinEmitTopic ≠ listenerTopic :=
  ⟨by decide, by decide, by decide⟩

/-! ## Claim theorems for the facade -/

/-- C8 (code evaluated at the failing input): for the same raw content
`"hello"`, `_Node.get` resolves the wrapped object while `_Gateway.get`
resolves the bare body, so the value observed by the facade's caller
depends on which source serviced the fetch. -/
theorem c8_get_result_shape_depends_on_source :
    nodeGetResult (fun _ => none) "hello" ≠ gatewayGetResult (fun _ => none) "hello" ∧
    IpfsService.get
      { nodeGet := fun _ => .ok (nodeGetResult (fun _ => none) "hello"),
        gatewayGet := fun _ => .ok (gatewayGetResult (fun _ => none) "hello"),
        gatewayGetFile := fun _ => .err "e",
        nodeGetFile := fun _ => .err "e" } "cid"
      = .ok (.dataObj (.str "hello")) ∧
    IpfsService.get
      { nodeGet := fun _ => .err "node down",
        gatewayGet := fun _ => .ok (gatewayGetResult (fun _ => none) "hello"),
        gatewayGetFile := fun _ => .err "e",
        nodeGetFile := fun _ => .err "e" } "cid"
      = .ok (.str "hello") :=
  ⟨by decide, rfl, rfl⟩

/-- C9: the facade's read-preference ordering — `get` tries the node
provider first and falls back to the gateway on any failure; `getFile`
tries the gateway first and falls back to the node; in each case the
fallback result is returned only when the preferred source fails, and the
call fails exactly when both sources fail. -/
theorem c9_facade_read_preference (env : ServiceEnv) (CID url : String) :
    (∀ v, env.nodeGet CID = .ok v → IpfsService.get env CID = .ok v) ∧
    (∀ e, env.nodeGet CID = .err e → IpfsService.get env CID = env.gatewayGet CID) ∧
    ((∃ e, IpfsService.get env CID = .err e) ↔
      (∃ e, env.nodeGet CID = .err e) ∧ (∃ e, env.gatewayGet CID = .err e)) ∧
    (∀ v, env.gatewayGetFile url = .ok v → IpfsService.getFile env url = .ok v) ∧
    (∀ e, env.gatewayGetFile url = .err e →
      IpfsService.getFile env url = env.nodeGetFile url) ∧
    ((∃ e, IpfsService.getFile env url = .err e) ↔
      (∃ e, env.gatewayGetFile url = .err e) ∧ (∃ e, env.nodeGetFile url = .err e)) := by
  refine ⟨?_, ?_, ?_, ?_, ?_, ?_⟩
  · intro v hv
    unfold IpfsService.get
    rw [hv]
  · intro e he
    unfold IpfsService.get
    rw [he]
  · unfold IpfsService.get
    cases hn : env.nodeGet CID with
    | ok v => simp
    | err e1 =>
      cases hg : env.gatewayGet CID with
      | ok v => simp
      | err e2 => exact ⟨fun _ => ⟨⟨e1, rfl⟩, ⟨e2, rfl⟩⟩, fun _ => ⟨e2, rfl⟩⟩
  · intro v hv
    unfold IpfsService.getFile
    rw [hv]
  · intro e he
    unfold IpfsService.getFile
    rw [he]
  · unfold IpfsService.getFile
    cases hn : env.gatewayGetFile url with
    | ok v => simp
    | err e1 =>
      cases hg : env.nodeGetFile url with
      | ok v => simp
      | err e2 => exact ⟨fun _ => ⟨⟨e1, rfl⟩, ⟨e2, rfl⟩⟩, fun _ => ⟨e2, rfl⟩⟩

/-- Witness for C9: with the node down, `get` returns the gateway value;
with the gateway down, `getFile` returns the node value. -/
theorem c9_witness :
    IpfsService.get
      { nodeGet := fun _ => .err "down",
        gatewayGet := fun _ => .ok (.str "v"),
        gatewayGetFile := fun _ => .err "e",
        nodeGetFile := fun _ => .ok { buffer := [1], ftype := none } }
      "c" = .ok (.str "v") ∧
    IpfsService.getFile
      { nodeGet := fun _ => .err "down",
        gatewayGet := fun _ => .ok (.str "v"),
        gatewayGetFile := fun _ => .err "e",
        nodeGetFile := fun _ => .ok { buffer := [1], ftype := none } }
      "u" = .ok { buffer := [1], ftype := none } := by
  constructor
  · exact (c9_facade_read_preference _ "c" "u").2.1 "down" rfl
  · exact (c9_facade_read_preference _ "c" "u").2.2.2.2.1 "e" rfl

example : extractCID (some "ipfs://QmX") = .retStr "QmX" := by decide
example : extractCID (some "https://gw/ipfs/QmX?q=1") = .retStr "QmX" := by decide
example : extractCID (some "https://QmX.ipfs.dweb.link/") = .retStr "QmX" := by decide
example : extractCID (some "QmX") = .retStr "QmX" := by decide
example : extractCID (some "?") = .throws := by decide
example : extractCID (some "a?b") = .retStr "a" := by decide
example : extractCID (some "") = .retNull := by decide
example : extractCID (some "ipfs://") = .throws := by decide
example : extractCID (some "X.ipfs.dweb.link/") = .retUndef := by decide

end HbarIpfs
